import Mathlib

/-!
# Verification of the `gensnippets` snippet generator

A shallow embedding of the Go package `gensnippets` (the internal tool of
this repository that extracts GoDoc examples and writes them out as
region-tagged snippet files), together with proofs about it.

Modelling conventions:
* Go strings are `List Char` (`Str`); Go's `strings` helpers are translated
  one to one (`trimPfx` is `strings.TrimPrefix`, `replaceSlash` is
  `strings.ReplaceAll(s, "/", "_")`, `List.splitOn '\n'` is
  `strings.Split(s, "\n")`).
* `filepath.Join` is `pjoin`, for already-clean components: joining with a
  `/`, collapsing the doubled slash when the second component already starts
  with `/`, and returning the other component when one is empty.
* The file system is modelled functionally: functions that write files
  return the list of `(path, contents)` pairs they write, in order; the
  functions can also fail, which is an `Except` error.  I/O failures
  (`os.MkdirAll`, `os.OpenFile`, write errors, `format.Node` failures) are
  not modelled; the `go/format` rendering of an example is carried as the
  `rendered` field of the example instead of calling the Go formatter.
* `time.Now().Year()` is a parameter `year`, fixed for a run.
* The Go map `apiShortnames` is an association list; Go map iteration order
  is unspecified, which is why the fold over its keys is proved to be
  order-independent below.
-/

/-- Go strings, as lists of characters. -/
abbrev Str := List Char

/-- Embed a Lean string literal as a `Str`. -/
def ofString (s : String) : Str := s.data

/-- `strings.TrimPrefix(s, p)`: drop `p` from the front of `s` when `p`
leads `s`, otherwise return `s` unchanged. -/
def trimPfx (s p : Str) : Str := if p <+: s then s.drop p.length else s

/-- `strings.TrimPrefix(line, "\t")` as used on snippet body lines. -/
def trimTab (line : Str) : Str := trimPfx line ['\t']

/-- `strings.ReplaceAll(s, "/", "_")`: with a one-character pattern and
replacement this is a character map. -/
def replaceSlash (s : Str) : Str := s.map (fun c => if c = '/' then '_' else c)

/-- `filepath.Join(a, b)` for clean components: empty components are
dropped, and the doubled slash is collapsed when `b` starts with `/`. -/
def pjoin (a b : Str) : Str :=
  if a = [] then b
  else if b = [] then a
  else if b.head? = some '/' then a ++ b
  else a ++ '/' :: b

/-- One GoDoc example (`*doc.Example`), together with the text produced for
it by `format.Node` (field `rendered`; the Go AST and the formatter are not
modelled, their output is). -/
structure DocExample where
  name : Str
  suffix : Str
  rendered : Str
deriving DecidableEq, Repr

/-- A documented function or method (`*doc.Func`): its name and examples. -/
structure DocFunc where
  name : Str
  examples : List DocExample
deriving DecidableEq, Repr

/-- A documented type (`*doc.Type`): its name, its examples, and its
constructor functions and methods. -/
structure DocType where
  name : Str
  examples : List DocExample
  funcs : List DocFunc
  methods : List DocFunc
deriving DecidableEq, Repr

/-- A documented package (`*doc.Package`): import path, top-level
functions, and types.  (Variables and constants carry no examples and are
not visited by the tool.) -/
structure DocPackage where
  importPath : Str
  funcs : List DocFunc
  types : List DocType
deriving DecidableEq, Repr

/-- The `skip` map: import paths whose packages produce no snippets. -/
def skip : List Str :=
  [ofString "cloud.google.com/go",
   ofString "cloud.google.com/go/civil",
   ofString "cloud.google.com/go/cloudbuild/apiv1",
   ofString "cloud.google.com/go/cmd/go-cloud-debug-agent",
   ofString "cloud.google.com/go/container",
   ofString "cloud.google.com/go/containeranalysis/apiv1",
   ofString "cloud.google.com/go/grafeas/apiv1",
   ofString "cloud.google.com/go/httpreplay",
   ofString "cloud.google.com/go/httpreplay/cmd/httpr",
   ofString "cloud.google.com/go/longrunning",
   ofString "cloud.google.com/go/monitoring/apiv3",
   ofString "cloud.google.com/go/translate"]

/-- Everything of the `licenseHeader` constant after the `%v` verb. -/
def headerTail : Str :=
  ofString " Google LLC\n//\n// Licensed under the Apache License, Version 2.0 (the \"License\");\n// you may not use this file except in compliance with the License.\n// You may obtain a copy of the License at\n//\n//      http://www.apache.org/licenses/LICENSE-2.0\n//\n// Unless required by applicable law or agreed to in writing, software\n// distributed under the License is distributed on an \"AS IS\" BASIS,\n// WITHOUT WARRANTIES OR CONDITIONS OF ANY KIND, either express or implied.\n// See the License for the specific language governing permissions and\n// limitations under the License.\n\n"

/-- `header()`: `fmt.Sprintf(licenseHeader, time.Now().Year())`, with the
year of the run as a parameter.  `%v` renders an int in decimal, which is
`toString`. -/
def header (year : Nat) : Str :=
  ofString "// Copyright " ++ ofString (toString year) ++ headerTail

/-- The body reformatting step of `writeExamples`: when the rendering is a
braced block (leads with `{` and a newline and ends with a newline and
`}`), split it into lines, drop the first and last line, strip one leading
tab from each remaining line and terminate each with a newline; otherwise
leave the rendering unchanged. -/
def reformat (s : Str) : Str :=
  if ['{', '\n'] <+: s ∧ ['\n', '}'] <:+ s then
    let lines := s.splitOn '\n'
    (((lines.drop 1).dropLast).map (fun line => trimTab line ++ ['\n'])).flatten
  else s

/-- The file name every snippet is written to inside its directory. -/
def mainGo : Str := ofString "main.go"

/-- The contents written for one example: the license header, the
`[START]` marker followed by a blank line, the (reformatted) example body,
and the `[END]` marker, in the order the writes happen in `writeExamples`. -/
def snippetContent (year : Nat) (tag body : Str) : Str :=
  header year
    ++ (ofString "// [START " ++ tag ++ ofString "]\n\n")
    ++ body
    ++ (ofString "// [END " ++ tag ++ ofString "]\n")

/-- `writeExamples(outDir, exs, fset, regionTag)`: the writes it performs.
With no examples there is nothing to do; with more than one example each
example goes into a subdirectory named by its suffix; every example file is
`main.go` and carries the region tag `regionTag + "_" + ex.Name`. -/
def writeExamples (outDir : Str) (exs : List DocExample) (regionTag : Str)
    (year : Nat) : List (Str × Str) :=
  if exs = [] then []
  else
    exs.map (fun ex =>
      let dir := if exs.length > 1 then pjoin outDir ex.suffix else outDir
      let filename := pjoin dir mainGo
      let s := reformat ex.rendered
      let tag := regionTag ++ '_' :: ex.name
      (filename, snippetContent year tag s))

/-- One step of the fallback scan over the keys of `apiShortnames`: a key
that leads the import path replaces the best match found so far when it is
strictly longer. -/
def bestMatchStep (importPath best path : Str) : Str :=
  if path <+: importPath then
    (if path.length > best.length then path else best)
  else best

/-- The whole fallback scan: fold `bestMatchStep` over the map keys, in the
order the iteration happens to visit them, starting from `""`. -/
def bestMatch (importPath : Str) (keys : List Str) : Str :=
  keys.foldl (bestMatchStep importPath) []

/-- The shortname resolution of `processExamples`, with the order in which
the `for path := range apiShortnames` loop happens to visit the keys made
explicit as `keys`: an exact lookup of the import path, then the
longest-leading-key fallback over `keys`, then an error when the fallback
found nothing. -/
def resolveShortnameWith (apiShortnames : List (Str × Str)) (keys : List Str)
    (importPath : Str) : Except Str Str :=
  match apiShortnames.lookup importPath with
  | some s => .ok s
  | none =>
    let best := bestMatch importPath keys
    if best = [] then
      .error (ofString "could not find API shortname for " ++ importPath)
    else .ok ((apiShortnames.lookup best).getD [])

/-- The shortname resolution of `processExamples`, visiting the keys in the
order of the association list. -/
def resolveShortname (apiShortnames : List (Str × Str)) (importPath : Str) :
    Except Str Str :=
  resolveShortnameWith apiShortnames (apiShortnames.map Prod.fst) importPath

/-- `processExamples(pkg, fset, trimPre, outDir, apiShortnames)`: skip
listed packages, resolve the shortname, build the region tag, and write the
examples of every function, type, constructor and method.  The result is
the list of writes, or the shortname-resolution error (the only failure
that is not an I/O failure). -/
def processExamples (pkg : DocPackage) (trimPre outDir : Str)
    (apiShortnames : List (Str × Str)) (year : Nat) :
    Except Str (List (Str × Str)) :=
  if pkg.importPath ∈ skip then .ok []
  else
    let trimmed := trimPfx pkg.importPath trimPre
    let outDir := pjoin outDir trimmed
    match resolveShortname apiShortnames pkg.importPath with
    | .error e => .error e
    | .ok shortname =>
      let regionTag := shortname ++ ofString "_generated" ++ replaceSlash trimmed
      .ok ((pkg.funcs.map (fun f =>
              writeExamples (pjoin outDir f.name) f.examples regionTag year)).flatten
        ++ (pkg.types.map (fun t =>
              writeExamples (pjoin outDir t.name) t.examples regionTag year
              ++ (t.funcs.map (fun f =>
                    writeExamples (pjoin (pjoin outDir t.name) f.name)
                      f.examples regionTag year)).flatten
              ++ (t.methods.map (fun m =>
                    writeExamples (pjoin (pjoin outDir t.name) m.name)
                      m.examples regionTag year)).flatten)).flatten)

/-- All examples of a package, in the order `processExamples` visits them. -/
def allExamples (pkg : DocPackage) : List DocExample :=
  (pkg.funcs.map (fun f => f.examples)).flatten
    ++ (pkg.types.map (fun t =>
          t.examples
          ++ (t.funcs.map (fun f => f.examples)).flatten
          ++ (t.methods.map (fun m => m.examples)).flatten)).flatten

/-- The inner loop of `Generate` over the packages of one directory: a
failing `processExamples` is wrapped in `failed to process examples:` and
appended to the error list, a succeeding one contributes its writes, and
every package is visited. -/
def processAll (pis : List DocPackage) (trimPre outDir : Str)
    (apiShortnames : List (Str × Str)) (year : Nat) :
    List (Str × Str) × List Str :=
  match pis with
  | [] => ([], [])
  | p :: rest =>
    let r := processAll rest trimPre outDir apiShortnames year
    match processExamples p trimPre outDir apiShortnames year with
    | .error e => (r.1, (ofString "failed to process examples: " ++ e) :: r.2)
    | .ok ws => (ws ++ r.1, r.2)

/-- The outer loop of `Generate` over the collected directories.  A
`pkgload.Load` failure returns at once (third component), discarding the
error list but not the writes already performed; otherwise the per-package
writes and errors accumulate across directories. -/
def GenerateLoop (dirs : List Str)
    (loader : Str → Except Str (List DocPackage)) (trimPre outDir : Str)
    (apiShortnames : List (Str × Str)) (year : Nat) :
    List (Str × Str) × List Str × Option Str :=
  match dirs with
  | [] => ([], [], none)
  | d :: rest =>
    match loader d with
    | .error e => ([], [], some (ofString "failed to load packages: " ++ e))
    | .ok pis =>
      let r := processAll pis trimPre outDir apiShortnames year
      let tl := GenerateLoop rest loader trimPre outDir apiShortnames year
      (r.1 ++ tl.1, r.2 ++ tl.2.1, tl.2.2)

/-- A file-system entry, for the `filepath.WalkDir` call of `Generate`:
either a file or a directory with its children.  Children are listed in
the order `fs.ReadDir` returns them (sorted by name). -/
inductive FsEntry where
  | file : Str → FsEntry
  | dir : Str → List FsEntry → FsEntry

/-- The entry name the walk callback skips. -/
def internalName : Str := ofString "internal"

/-- The entry name that marks a module root. -/
def goModName : Str := ofString "go.mod"

mutual

/-- The walk of a single entry below the directory `parent`: the collected
module directories, and whether a `SkipDir` from a non-directory entry
tells the walk to abandon the remaining entries of `parent`.  An entry
named `internal` yields `SkipDir` (for a directory: skip its subtree; for a
file: skip the rest of the containing directory); an entry named `go.mod`
contributes `filepath.Dir` of its path, which is `parent`. -/
def walkEntry (parent : Str) (e : FsEntry) : List Str × Bool :=
  match e with
  | .file n =>
    if n = internalName then ([], true)
    else if n = goModName then ([parent], false)
    else ([], false)
  | .dir n children =>
    if n = internalName then ([], false)
    else if n = goModName then
      (parent :: walkEntries (pjoin parent n) children, false)
    else (walkEntries (pjoin parent n) children, false)

/-- The walk of the entries of the directory at `path`, in order, stopping
early when an entry signals that its siblings are to be skipped. -/
def walkEntries (path : Str) (es : List FsEntry) : List Str :=
  match es with
  | [] => []
  | e :: rest =>
    let r := walkEntry path e
    if r.2 then r.1 else r.1 ++ walkEntries path rest

end

/-- The `filepath.WalkDir` call of `Generate` on the root directory
`rootPath` with entries `rootChildren`: the directories of all `go.mod`
entries reached by the walk.  (The callback's visit of the root itself
matches neither `internal` nor `go.mod` for a repository root and returns
`nil`, so only the walk below it is modelled.) -/
def collectDirs (rootPath : Str) (rootChildren : List FsEntry) : List Str :=
  walkEntries rootPath rootChildren

/-- Whether an entry is a file named `go.mod`. -/
def isGoModFile (e : FsEntry) : Bool :=
  match e with
  | .file n => n = goModName
  | .dir _ _ => false

/-- Whether a directory's child list has a file named `go.mod`. -/
def hasGoModFile (es : List FsEntry) : Bool :=
  es.any isGoModFile

mutual

/-- Specification side: the paths of all directories within `e` (whose own
path is `pjoin parent (name of e)`) that contain a `go.mod` file. -/
def gmEntry (parent : Str) (e : FsEntry) : List Str :=
  match e with
  | .file _ => []
  | .dir n children =>
    (if hasGoModFile children then [pjoin parent n] else [])
      ++ gmEntries (pjoin parent n) children

/-- Specification side, over a child list at `path`. -/
def gmEntries (path : Str) (es : List FsEntry) : List Str :=
  match es with
  | [] => []
  | e :: rest => gmEntry path e ++ gmEntries path rest

end

/-- Specification side: all directories of the tree (the root at `rootPath`
with entries `rootChildren` included) that contain a `go.mod` file. -/
def goModDirs (rootPath : Str) (rootChildren : List FsEntry) : List Str :=
  (if hasGoModFile rootChildren then [rootPath] else [])
    ++ gmEntries rootPath rootChildren

mutual

/-- No entry of the tree is named `internal`, and no directory is named
`go.mod`. -/
def okEntry (e : FsEntry) : Bool :=
  match e with
  | .file n => n ≠ internalName
  | .dir n children => n ≠ internalName && n ≠ goModName && okEntries children

/-- `okEntry`, over a child list. -/
def okEntries (es : List FsEntry) : Bool :=
  match es with
  | [] => true
  | e :: rest => okEntry e && okEntries rest

end

/-- `Generate(rootDir, outDir, apiShortnames)`: apply the defaults for the
empty arguments, collect the module directories by walking the tree, then
load and process every collected directory.  The `goimports` run over the
output directory and the `log.Fatal` on a non-empty error list are outside
the model; the error list is returned instead. -/
def Generate (rootPath : Str) (rootChildren : List FsEntry)
    (loader : Str → Except Str (List DocPackage)) (outDir : Str)
    (apiShortnames : List (Str × Str)) (year : Nat) :
    List (Str × Str) × List Str × Option Str :=
  let rootPath := if rootPath = [] then ofString "." else rootPath
  let outDir := if outDir = [] then ofString "internal/generated/snippets" else outDir
  let dirs := collectDirs rootPath rootChildren
  GenerateLoop dirs loader (ofString "cloud.google.com/go") outDir apiShortnames year

/-! ### Concrete fixtures used by the witness theorems -/

/-- A one-example fixture whose rendering is a braced block. -/
def exHello : DocExample :=
  { name := ofString "Hello", suffix := ofString "",
    rendered := ofString "\x7b\n\tx := 1\n\t_ = x\n\x7d" }

/-- A fixture example with suffix `one`. -/
def exOne : DocExample :=
  { name := ofString "Hello_one", suffix := ofString "one",
    rendered := ofString "package main\n" }

/-- A fixture example with suffix `two`. -/
def exTwo : DocExample :=
  { name := ofString "Hello_two", suffix := ofString "two",
    rendered := ofString "package main\n" }

/-- A fixture package matched by the fallback shortname search. -/
def pkgBttest : DocPackage :=
  { importPath := ofString "cloud.google.com/go/bigtable/bttest",
    funcs := [{ name := ofString "NewServer", examples := [exHello] }],
    types := [] }

/-- A fixture package whose import path is in the skip list. -/
def pkgCivil : DocPackage :=
  { importPath := ofString "cloud.google.com/go/civil",
    funcs := [{ name := ofString "DateOf", examples := [exHello] }],
    types := [] }

/-- A fixture package no shortname map key leads: its processing fails. -/
def pkgNoMatch : DocPackage :=
  { importPath := ofString "example.com/other",
    funcs := [{ name := ofString "New", examples := [exHello] }],
    types := [] }

/-- A fixture shortname map with a single entry. -/
def mapBigtable : List (Str × Str) :=
  [(ofString "cloud.google.com/go/bigtable", ofString "bigtable")]

/-- A fixture tree: the repository root holds `internal/go.mod` only. -/
def treeInternalGoMod : List FsEntry :=
  [.dir (ofString "internal") [.file (ofString "go.mod")]]

/-- A fixture tree: the repository root holds `kms/go.mod`. -/
def treeKms : List FsEntry :=
  [.dir (ofString "kms") [.file (ofString "go.mod")]]


/-- Observer: the writes a package contributes to a run (a package whose
`processExamples` fails contributes none). -/
def pkgWrites (p : DocPackage) (trimPre outDir : Str)
    (apiShortnames : List (Str × Str)) (year : Nat) : List (Str × Str) :=
  match processExamples p trimPre outDir apiShortnames year with
  | .ok ws => ws
  | .error _ => []

/-- Observer: the error a package contributes to the aggregated error list,
wrapped the way `Generate` wraps it. -/
def pkgErr (p : DocPackage) (trimPre outDir : Str)
    (apiShortnames : List (Str × Str)) (year : Nat) : Option Str :=
  match processExamples p trimPre outDir apiShortnames year with
  | .ok _ => none
  | .error e => some (ofString "failed to process examples: " ++ e)

/-- Observer: the packages of a load result (none for a failed load). -/
def loadedPkgs (r : Except Str (List DocPackage)) : List DocPackage :=
  match r with
  | .ok ps => ps
  | .error _ => []

/-! ### Helper lemmas -/

/-- Membership in the writes of `writeExamples`: every write belongs to one
of the examples, is named `main.go` in the per-example directory, and holds
`snippetContent` for the example's tag and reformatted body. -/
theorem mem_writeExamples {outDir : Str} {exs : List DocExample}
    {regionTag : Str} {year : Nat} {w : Str × Str}
    (hw : w ∈ writeExamples outDir exs regionTag year) :
    ∃ ex ∈ exs,
      w = (pjoin (if exs.length > 1 then pjoin outDir ex.suffix else outDir) mainGo,
           snippetContent year (regionTag ++ '_' :: ex.name) (reformat ex.rendered)) := by
  unfold writeExamples at hw
  by_cases h : exs = []
  · simp [h] at hw
  · rw [if_neg h] at hw
    rcases List.mem_map.1 hw with ⟨ex, hex, hexw⟩
    exact ⟨ex, hex, hexw.symm⟩

/-- Every write of `writeExamples` starts with the license header. -/
theorem header_prefix_of_mem_writeExamples {outDir : Str}
    {exs : List DocExample} {regionTag : Str} {year : Nat} {w : Str × Str}
    (hw : w ∈ writeExamples outDir exs regionTag year) :
    header year <+: w.2 := by
  rcases mem_writeExamples hw with ⟨ex, _, rfl⟩
  simp only [snippetContent, List.append_assoc]
  exact List.prefix_append _ _

/-- The writes of a successful `processExamples` all come from
`writeExamples` calls whose region tag is the one built from the resolved
shortname and the trimmed import path. -/
theorem mem_processExamples_writes {pkg : DocPackage} {trimPre outDir : Str}
    {m : List (Str × Str)} {year : Nat} {ws : List (Str × Str)}
    (h : processExamples pkg trimPre outDir m year = .ok ws)
    {w : Str × Str} (hw : w ∈ ws) :
    ∃ sn, resolveShortname m pkg.importPath = .ok sn ∧
      ∃ ex ∈ allExamples pkg, ∃ d,
        w = (d, snippetContent year
              ((sn ++ ofString "_generated"
                  ++ replaceSlash (trimPfx pkg.importPath trimPre)) ++ '_' :: ex.name)
              (reformat ex.rendered)) := by
  unfold processExamples at h
  by_cases hs : pkg.importPath ∈ skip
  · rw [if_pos hs] at h
    cases h
    cases hw
  · rw [if_neg hs] at h
    rcases hr : resolveShortname m pkg.importPath with e | sn
    · rw [hr] at h
      cases h
    · rw [hr] at h
      cases h
      refine ⟨sn, rfl, ?_⟩
      rcases List.mem_append.1 hw with hw | hw
      · rcases List.mem_flatten.1 hw with ⟨l, hl, hwl⟩
        rcases List.mem_map.1 hl with ⟨f, hf, rfl⟩
        rcases mem_writeExamples hwl with ⟨ex, hex, rfl⟩
        refine ⟨ex, ?_, _, rfl⟩
        exact List.mem_append.2 (Or.inl (List.mem_flatten.2
          ⟨f.examples, List.mem_map.2 ⟨f, hf, rfl⟩, hex⟩))
      · rcases List.mem_flatten.1 hw with ⟨l, hl, hwl⟩
        rcases List.mem_map.1 hl with ⟨t, ht, rfl⟩
        have htmem : ∀ {ex : DocExample},
            ex ∈ t.examples
              ++ (t.funcs.map (fun f => f.examples)).flatten
              ++ (t.methods.map (fun mth => mth.examples)).flatten →
            ex ∈ allExamples pkg := by
          intro ex hex
          exact List.mem_append.2 (Or.inr (List.mem_flatten.2
            ⟨_, List.mem_map.2 ⟨t, ht, rfl⟩, hex⟩))
        rcases List.mem_append.1 hwl with hwl | hwl
        rcases List.mem_append.1 hwl with hwl | hwl
        · rcases mem_writeExamples hwl with ⟨ex, hex, rfl⟩
          exact ⟨ex, htmem (by simp [hex]), _, rfl⟩
        · rcases List.mem_flatten.1 hwl with ⟨l, hl, hwll⟩
          rcases List.mem_map.1 hl with ⟨f, hf, rfl⟩
          rcases mem_writeExamples hwll with ⟨ex, hex, rfl⟩
          refine ⟨ex, htmem ?_, _, rfl⟩
          refine List.mem_append.2 (Or.inl (List.mem_append.2 (Or.inr ?_)))
          exact List.mem_flatten.2 ⟨f.examples, List.mem_map.2 ⟨f, hf, rfl⟩, hex⟩
        · rcases List.mem_flatten.1 hwl with ⟨l, hl, hwll⟩
          rcases List.mem_map.1 hl with ⟨mth, hm, rfl⟩
          rcases mem_writeExamples hwll with ⟨ex, hex, rfl⟩
          refine ⟨ex, htmem ?_, _, rfl⟩
          refine List.mem_append.2 (Or.inr ?_)
          exact List.mem_flatten.2 ⟨mth.examples, List.mem_map.2 ⟨mth, hm, rfl⟩, hex⟩

/-- The invariant of the fallback fold: starting from `b₀`, the fold either
returns `b₀` untouched or a strictly longer key of the visited list that
leads the import path; the result never shrinks, and it is at least as long
as every visited key that leads the import path. -/
theorem foldl_bestMatchStep_spec (ip : Str) (l : List Str) (b₀ : Str) :
    (l.foldl (bestMatchStep ip) b₀ = b₀ ∨
      (l.foldl (bestMatchStep ip) b₀ ∈ l ∧ l.foldl (bestMatchStep ip) b₀ <+: ip ∧
        b₀.length < (l.foldl (bestMatchStep ip) b₀).length)) ∧
    b₀.length ≤ (l.foldl (bestMatchStep ip) b₀).length ∧
    ∀ k ∈ l, k <+: ip → k.length ≤ (l.foldl (bestMatchStep ip) b₀).length := by
  induction l generalizing b₀ with
  | nil => simp
  | cons a t ih =>
    simp only [List.foldl_cons]
    have H := ih (bestMatchStep ip b₀ a)
    by_cases ha : a <+: ip
    · by_cases hlen : a.length > b₀.length
      · have hstep : bestMatchStep ip b₀ a = a := by
          simp [bestMatchStep, ha, hlen]
        rw [hstep] at H ⊢
        refine ⟨?_, le_trans (le_of_lt hlen) H.2.1, ?_⟩
        · rcases H.1 with h | ⟨hmem, hpre, hlt⟩
          · rw [h]
            exact Or.inr ⟨List.mem_cons_self a t, ha, hlen⟩
          · exact Or.inr ⟨List.mem_cons_of_mem a hmem, hpre, lt_trans hlen hlt⟩
        · intro k hk hkp
          rcases List.mem_cons.1 hk with rfl | hk
          · exact H.2.1
          · exact H.2.2 k hk hkp
      · have hstep : bestMatchStep ip b₀ a = b₀ := by
          simp only [bestMatchStep, if_pos ha, if_neg hlen]
        rw [hstep] at H ⊢
        refine ⟨?_, H.2.1, ?_⟩
        · rcases H.1 with h | ⟨hmem, hpre, hlt⟩
          · exact Or.inl h
          · exact Or.inr ⟨List.mem_cons_of_mem a hmem, hpre, hlt⟩
        · intro k hk hkp
          rcases List.mem_cons.1 hk with rfl | hk
          · exact le_trans (Nat.le_of_not_lt hlen) H.2.1
          · exact H.2.2 k hk hkp
    · have hstep : bestMatchStep ip b₀ a = b₀ := by
        simp [bestMatchStep, ha]
      rw [hstep] at H ⊢
      refine ⟨?_, H.2.1, ?_⟩
      · rcases H.1 with h | ⟨hmem, hpre, hlt⟩
        · exact Or.inl h
        · exact Or.inr ⟨List.mem_cons_of_mem a hmem, hpre, hlt⟩
      · intro k hk hkp
        rcases List.mem_cons.1 hk with rfl | hk
        · exact absurd hkp ha
        · exact H.2.2 k hk hkp

/-- `bestMatch` either finds nothing, in which case every key leading
the import path is empty, or it returns a nonempty key of the list
leading the import path, at least as long as every such key. -/
theorem bestMatch_spec (ip : Str) (keys : List Str) :
    (bestMatch ip keys = [] ∧ ∀ k ∈ keys, k <+: ip → k = []) ∨
    (bestMatch ip keys ∈ keys ∧ bestMatch ip keys <+: ip ∧ bestMatch ip keys ≠ [] ∧
      ∀ k ∈ keys, k <+: ip → k.length ≤ (bestMatch ip keys).length) := by
  have H := foldl_bestMatchStep_spec ip keys []
  have hbm : keys.foldl (bestMatchStep ip) [] = bestMatch ip keys := rfl
  rw [hbm] at H
  rcases H.1 with h | ⟨hmem, hpre, hlt⟩
  · left
    refine ⟨h, fun k hk hkp => ?_⟩
    have hlen := H.2.2 k hk hkp
    rw [h] at hlen
    exact List.length_eq_zero.1 (Nat.le_zero.1 hlen)
  · right
    refine ⟨hmem, hpre, ?_, H.2.2⟩
    intro h0
    rw [h0] at hlt
    simp at hlt

/-- Two key orders that are permutations of one another give the same
`bestMatch`: the result is characterised order-independently by
`bestMatch_spec`, and the characterisation has a unique solution because
two keys that both lead the same import path and have the same length are
equal. -/
theorem bestMatch_perm (ip : Str) {keys₁ keys₂ : List Str}
    (h : keys₁.Perm keys₂) : bestMatch ip keys₁ = bestMatch ip keys₂ := by
  have H₁ := bestMatch_spec ip keys₁
  have H₂ := bestMatch_spec ip keys₂
  rcases H₁ with ⟨h1, hall1⟩ | ⟨hm1, hp1, hn1, hmax1⟩ <;>
    rcases H₂ with ⟨h2, hall2⟩ | ⟨hm2, hp2, hn2, hmax2⟩
  · rw [h1, h2]
  · exact absurd (hall1 _ (h.mem_iff.2 hm2) hp2) hn2
  · exact absurd (hall2 _ (h.mem_iff.1 hm1) hp1) hn1
  · have l12 : (bestMatch ip keys₁).length ≤ (bestMatch ip keys₂).length :=
      hmax2 _ (h.mem_iff.1 hm1) hp1
    have l21 : (bestMatch ip keys₂).length ≤ (bestMatch ip keys₁).length :=
      hmax1 _ (h.mem_iff.2 hm2) hp2
    exact (List.prefix_of_prefix_length_le hp1 hp2 l12).eq_of_length
      (le_antisymm l12 l21)

/-- `intercalate` with a one-element separator unfolds across a `cons` with
a nonempty tail. -/
theorem intercalate_cons_of_ne_nil {α : Type} (x : α) (a : List α)
    (l : List (List α)) (h : l ≠ []) :
    [x].intercalate (a :: l) = a ++ x :: [x].intercalate l := by
  cases l with
  | nil => exact absurd rfl h
  | cons b t => simp [List.intercalate, List.intersperse_cons_cons]

/-- An intercalation whose line list ends in `last` ends in the separator
followed by `last`, provided there is a line before `last`. -/
theorem suffix_intercalate_concat {α : Type} (x : α) (last : List α)
    (l : List (List α)) (h : l ≠ []) :
    x :: last <:+ [x].intercalate (l ++ [last]) := by
  induction l with
  | nil => exact absurd rfl h
  | cons a t ih =>
    rw [List.cons_append, intercalate_cons_of_ne_nil x a (t ++ [last]) (by simp)]
    cases t with
    | nil =>
      simp only [List.nil_append, List.intercalate, List.intersperse_singleton,
        List.flatten]
      have : a ++ x :: (last ++ []) = a ++ x :: last := by simp
      rw [this]
      exact List.suffix_append a (x :: last)
    | cons b t2 =>
      refine (ih (by simp)).trans ?_
      have : a ++ x :: [x].intercalate (b :: t2 ++ [last])
          = (a ++ [x]) ++ [x].intercalate (b :: t2 ++ [last]) := by simp
      rw [this]
      exact List.suffix_append _ _

/-- `reformat`, on a rendering assembled from a `{` line, middle lines
`mid` and a `}` line: the first and last lines are dropped, one leading tab
is stripped from every middle line, and every middle line is terminated by
a newline. -/
theorem reformat_intercalate (mid : List Str) (h : ∀ l ∈ mid, '\n' ∉ l) :
    reformat (['\n'].intercalate (['{'] :: (mid ++ [['}']]))) =
      (mid.map (fun line => trimTab line ++ ['\n'])).flatten := by
  have hs : ['\n'].intercalate (['{'] :: (mid ++ [['}']]))
      = ['{'] ++ '\n' :: ['\n'].intercalate (mid ++ [['}']]) :=
    intercalate_cons_of_ne_nil '\n' ['{'] _ (by simp)
  have hpre : ['{', '\n'] <+: ['\n'].intercalate (['{'] :: (mid ++ [['}']])) := by
    rw [hs]
    exact ⟨_, rfl⟩
  have hsuf : ['\n', '}'] <:+ ['\n'].intercalate (['{'] :: (mid ++ [['}']])) := by
    have h2 := suffix_intercalate_concat '\n' ['}'] (['{'] :: mid) (by simp)
    simpa using h2
  have hsplit : (['\n'].intercalate (['{'] :: (mid ++ [['}']]))).splitOn '\n'
      = ['{'] :: (mid ++ [['}']]) := by
    apply List.splitOn_intercalate
    · intro l hl
      rcases List.mem_cons.1 hl with rfl | hl
      · simp
      · rcases List.mem_append.1 hl with hl | hl
        · exact h l hl
        · simp only [List.mem_singleton] at hl
          subst hl
          simp
    · simp
  unfold reformat
  rw [if_pos ⟨hpre, hsuf⟩, hsplit]
  simp [List.dropLast_concat]

mutual

/-- Below a tree with no `internal` entry and no `go.mod` directory, the
walk of one entry never asks to skip its siblings, and it collects exactly
the go.mod-containing directory paths of that entry (plus the parent, when
the entry is itself a `go.mod` file). -/
theorem mem_walkEntry (p parent : Str) (e : FsEntry) (h : okEntry e = true) :
    (walkEntry parent e).2 = false ∧
    (p ∈ (walkEntry parent e).1 ↔
      (isGoModFile e = true ∧ p = parent) ∨ p ∈ gmEntry parent e) := by
  cases e with
  | file n =>
    have hn : n ≠ internalName := by simpa [okEntry] using h
    by_cases hg : n = goModName
    · subst hg
      simp [walkEntry, hn, isGoModFile, gmEntry]
    · simp [walkEntry, hn, hg, isGoModFile, gmEntry]
  | dir n children =>
    have h3 : (n ≠ internalName ∧ n ≠ goModName) ∧ okEntries children = true := by
      simpa [okEntry] using h
    have hrec := mem_walkEntries p (pjoin parent n) children h3.2
    refine ⟨by simp [walkEntry, h3.1.1, h3.1.2], ?_⟩
    have hw1 : (walkEntry parent (.dir n children)).1
        = walkEntries (pjoin parent n) children := by
      simp [walkEntry, h3.1.1, h3.1.2]
    rw [hw1, hrec]
    simp only [isGoModFile, gmEntry, List.mem_append]
    by_cases hgm : hasGoModFile children = true <;> simp [hgm]

/-- Below a child list with no `internal` entry and no `go.mod` directory,
the walk collects exactly the paths of the go.mod-containing directories,
the directory at `path` itself included. -/
theorem mem_walkEntries (p path : Str) (es : List FsEntry)
    (h : okEntries es = true) :
    p ∈ walkEntries path es ↔
      (hasGoModFile es = true ∧ p = path) ∨ p ∈ gmEntries path es := by
  cases es with
  | nil => simp [walkEntries, hasGoModFile, gmEntries]
  | cons e rest =>
    have he : okEntry e = true ∧ okEntries rest = true := by
      simpa [okEntries] using h
    have H1 := mem_walkEntry p path e he.1
    have H2 := mem_walkEntries p path rest he.2
    simp only [walkEntries, H1.1, if_neg (by simp : ¬(false = true)),
      List.mem_append]
    rw [H1.2, H2]
    simp only [hasGoModFile, List.any_cons, gmEntries, List.mem_append,
      Bool.or_eq_true]
    by_cases h1 : isGoModFile e = true <;>
      by_cases h2 : rest.any isGoModFile = true <;>
        simp [h1, h2] <;> tauto

end

/-- The inner package loop: the writes are those of the succeeding
packages in order, the error list collects the failures in order, and every
package is visited exactly once. -/
theorem processAll_eq (pis : List DocPackage) (trimPre outDir : Str)
    (m : List (Str × Str)) (year : Nat) :
    processAll pis trimPre outDir m year =
      ((pis.map (fun p => pkgWrites p trimPre outDir m year)).flatten,
       pis.filterMap (fun p => pkgErr p trimPre outDir m year)) := by
  induction pis with
  | nil => simp [processAll]
  | cons p rest ih =>
    simp only [processAll, ih, List.map_cons, List.flatten_cons,
      List.filterMap_cons]
    rcases hp : processExamples p trimPre outDir m year with e | ws <;>
      simp [pkgWrites, pkgErr, hp]

/-- The header leads the contents written for any example. -/
theorem header_prefix_snippetContent (year : Nat) (tag body : Str) :
    header year <+: snippetContent year tag body := by
  simp only [snippetContent, List.append_assoc]
  exact List.prefix_append _ _

/-- **C7.** When `processExamples` fails for a package, `Generate` does not
stop: whenever every collected directory loads, the loop visits every
loaded package exactly once in order, the writes are those of the
succeeding packages, and the error list aggregates the wrapped failure of
every failing package, with no retry and no abort. -/
theorem generateLoop_error_aggregation (dirs : List Str)
    (loader : Str → Except Str (List DocPackage)) (tp od : Str)
    (m : List (Str × Str)) (year : Nat)
    (h : ∀ d ∈ dirs, ∃ ps, loader d = .ok ps) :
    GenerateLoop dirs loader tp od m year =
      (((dirs.map (fun d => loadedPkgs (loader d))).flatten.map
          (fun p => pkgWrites p tp od m year)).flatten,
       (dirs.map (fun d => loadedPkgs (loader d))).flatten.filterMap
          (fun p => pkgErr p tp od m year),
       none) := by
  induction dirs with
  | nil => simp [GenerateLoop]
  | cons d rest ih =>
    obtain ⟨ps, hps⟩ := h d (List.mem_cons_self d rest)
    have ihr := ih (fun d2 hd2 => h d2 (List.mem_cons_of_mem _ hd2))
    simp only [GenerateLoop, hps, processAll_eq, ihr, loadedPkgs,
      List.map_cons, List.flatten_cons, List.map_append, List.flatten_append,
      List.filterMap_append]

/-- Every write performed by the directory loop starts with the license
header of the run. -/
theorem header_prefix_GenerateLoop (dirs : List Str)
    (loader : Str → Except Str (List DocPackage)) (tp od : Str)
    (m : List (Str × Str)) (year : Nat) :
    ∀ w ∈ (GenerateLoop dirs loader tp od m year).1, header year <+: w.2 := by
  induction dirs with
  | nil => simp [GenerateLoop]
  | cons d rest ih =>
    intro w hw
    rcases hl : loader d with e | ps
    · simp [GenerateLoop, hl] at hw
    · simp only [GenerateLoop, hl] at hw
      rcases List.mem_append.1 hw with hw | hw
      · rw [processAll_eq] at hw
        rcases List.mem_flatten.1 hw with ⟨l, hl2, hwl⟩
        rcases List.mem_map.1 hl2 with ⟨pk, _, rfl⟩
        unfold pkgWrites at hwl
        rcases hp : processExamples pk tp od m year with e2 | ws
        · rw [hp] at hwl
          cases hwl
        · rw [hp] at hwl
          rcases mem_processExamples_writes hp hwl with ⟨sn, _, ex, _, d2, rfl⟩
          exact header_prefix_snippetContent year _ _
      · exact ih w hw

/-- `filepath.Join` with an empty left component. -/
theorem pjoin_nil_left (b : Str) : pjoin [] b = b := by simp [pjoin]

/-- `filepath.Join` with an empty right component. -/
theorem pjoin_nil_right (a : Str) : pjoin a [] = a := by
  simp [pjoin]

/-- `filepath.Join` of nonempty clean components. -/
theorem pjoin_of_ne (a b : Str) (ha : a ≠ []) (hb : b ≠ [])
    (hh : b.head? ≠ some '/') : pjoin a b = a ++ '/' :: b := by
  simp [pjoin, ha, hb, hh]

/-- Distinct suffixes that do not start with a slash give distinct
`main.go` paths below the same symbol directory. -/
theorem filename_ne_of_suffix_ne (d s₁ s₂ : Str)
    (h₁ : s₁.head? ≠ some '/') (h₂ : s₂.head? ≠ some '/') (hne : s₁ ≠ s₂) :
    pjoin (pjoin d s₁) mainGo ≠ pjoin (pjoin d s₂) mainGo := by
  have hm : (mainGo : Str) ≠ [] := by decide
  have hmh : (mainGo : Str).head? ≠ some '/' := by decide
  have key : ∀ s : Str, s.head? ≠ some '/' →
      pjoin (pjoin d s) mainGo =
        if d = [] then (if s = [] then mainGo else s ++ '/' :: mainGo)
        else (if s = [] then d ++ '/' :: mainGo
              else (d ++ '/' :: s) ++ '/' :: mainGo) := by
    intro s hs
    by_cases hd : d = []
    · subst hd
      by_cases hsn : s = []
      · subst hsn
        rw [pjoin_nil_left, pjoin_nil_left]
        simp
      · rw [pjoin_nil_left, pjoin_of_ne s mainGo hsn hm hmh]
        simp [hsn]
    · by_cases hsn : s = []
      · subst hsn
        rw [pjoin_nil_right, pjoin_of_ne d mainGo hd hm hmh]
        simp [hd]
      · rw [pjoin_of_ne d s hd hsn hs,
           pjoin_of_ne (d ++ '/' :: s) mainGo (by simp) hm hmh]
        simp [hd, hsn]
  rw [key s₁ h₁, key s₂ h₂]
  by_cases hd : d = []
  · by_cases h1n : s₁ = []
    · by_cases h2n : s₂ = []
      · exact absurd (h1n.trans h2n.symm) hne
      · rw [if_pos hd, if_pos hd, if_pos h1n, if_neg h2n]
        intro he
        have hlen := congrArg List.length he
        simp only [List.length_append, List.length_cons] at hlen
        omega
    · by_cases h2n : s₂ = []
      · rw [if_pos hd, if_pos hd, if_neg h1n, if_pos h2n]
        intro he
        have hlen := congrArg List.length he
        simp only [List.length_append, List.length_cons] at hlen
        omega
      · rw [if_pos hd, if_pos hd, if_neg h1n, if_neg h2n]
        intro he
        exact hne (List.append_cancel_right he)
  · by_cases h1n : s₁ = []
    · by_cases h2n : s₂ = []
      · exact absurd (h1n.trans h2n.symm) hne
      · rw [if_neg hd, if_neg hd, if_pos h1n, if_neg h2n]
        intro he
        have hlen := congrArg List.length he
        simp only [List.length_append, List.length_cons] at hlen
        omega
    · by_cases h2n : s₂ = []
      · rw [if_neg hd, if_neg hd, if_neg h1n, if_pos h2n]
        intro he
        have hlen := congrArg List.length he
        simp only [List.length_append, List.length_cons] at hlen
        omega
      · rw [if_neg hd, if_neg hd, if_neg h1n, if_neg h2n]
        intro he
        have he2 := List.append_cancel_right he
        have he3 := List.append_cancel_left he2
        injection he3 with hh ht
        exact hne ht

/-! ### The claims -/

/-- **C1.** Every file emitted by `writeExamples` is the license header,
then the `// [START <tag>]` line followed by a blank line, then the
formatted example source, then the `// [END <tag>]` line, where both
markers carry the identical tag (namely `regionTag + "_" + ex.Name`). -/
theorem writeExamples_matching_region_markers (outDir : Str)
    (exs : List DocExample) (regionTag : Str) (year : Nat) :
    ∀ w ∈ writeExamples outDir exs regionTag year, ∃ tag body,
      (∃ ex ∈ exs, tag = regionTag ++ '_' :: ex.name ∧
        body = reformat ex.rendered) ∧
      w.2 = header year
        ++ (ofString "// [START " ++ tag ++ ofString "]\n\n")
        ++ body
        ++ (ofString "// [END " ++ tag ++ ofString "]\n") := by
  intro w hw
  rcases mem_writeExamples hw with ⟨ex, hex, rfl⟩
  exact ⟨regionTag ++ '_' :: ex.name, reformat ex.rendered,
    ⟨ex, hex, rfl, rfl⟩, rfl⟩

/-- Witness for C1: a concrete `writeExamples` run emits a file with
matching `[START]`/`[END]` markers. -/
theorem writeExamples_matching_region_markers_instance :
    ∃ w, w ∈ writeExamples (ofString "out") [exHello] (ofString "tag") 2021 ∧
      ∃ tag body,
        (∃ ex ∈ [exHello], tag = ofString "tag" ++ '_' :: ex.name ∧
          body = reformat ex.rendered) ∧
        w.2 = header 2021
          ++ (ofString "// [START " ++ tag ++ ofString "]\n\n")
          ++ body
          ++ (ofString "// [END " ++ tag ++ ofString "]\n") := by
  have hne : writeExamples (ofString "out") [exHello] (ofString "tag") 2021 ≠ [] := by
    simp [writeExamples]
  exact ⟨_, List.head_mem hne,
    writeExamples_matching_region_markers (ofString "out") [exHello]
      (ofString "tag") 2021 _ (List.head_mem hne)⟩

/-- **C4.** A symbol with exactly one example is written to
`<symbolDir>/main.go`; with more than one example each example is written
to `<symbolDir>/<suffix>/main.go`, and distinct suffixes (that do not start
with a path separator) give distinct files. -/
theorem writeExamples_file_layout (outDir : Str) (exs : List DocExample)
    (regionTag : Str) (year : Nat) :
    (∀ ex, exs = [ex] →
      (writeExamples outDir exs regionTag year).map Prod.fst
        = [pjoin outDir mainGo]) ∧
    (1 < exs.length →
      (writeExamples outDir exs regionTag year).map Prod.fst
        = exs.map (fun ex => pjoin (pjoin outDir ex.suffix) mainGo)) ∧
    (∀ ex₁ ∈ exs, ∀ ex₂ ∈ exs,
      ex₁.suffix.head? ≠ some '/' → ex₂.suffix.head? ≠ some '/' →
      ex₁.suffix ≠ ex₂.suffix →
      pjoin (pjoin outDir ex₁.suffix) mainGo
        ≠ pjoin (pjoin outDir ex₂.suffix) mainGo) := by
  refine ⟨?_, ?_, ?_⟩
  · rintro ex rfl
    simp [writeExamples]
  · intro hlen
    have hne : exs ≠ [] := by
      intro h
      rw [h] at hlen
      simp at hlen
    simp only [writeExamples, if_neg hne, List.map_map, if_pos hlen]
    rfl
  · intro ex₁ _ ex₂ _ hh₁ hh₂ hs
    exact filename_ne_of_suffix_ne outDir ex₁.suffix ex₂.suffix hh₁ hh₂ hs

/-- Witness for C4 at a concrete two-example symbol. -/
theorem writeExamples_file_layout_instance :
    (writeExamples (ofString "out") [exHello] (ofString "t") 2021).map Prod.fst
      = [pjoin (ofString "out") mainGo] ∧
    (writeExamples (ofString "out") [exOne, exTwo] (ofString "t") 2021).map Prod.fst
      = [exOne, exTwo].map (fun ex => pjoin (pjoin (ofString "out") ex.suffix) mainGo) ∧
    pjoin (pjoin (ofString "out") exOne.suffix) mainGo
      ≠ pjoin (pjoin (ofString "out") exTwo.suffix) mainGo := by
  refine ⟨(writeExamples_file_layout (ofString "out") [exHello] (ofString "t") 2021).1
      exHello rfl,
    (writeExamples_file_layout (ofString "out") [exOne, exTwo] (ofString "t") 2021).2.1
      (by decide),
    (writeExamples_file_layout (ofString "out") [exOne, exTwo] (ofString "t") 2021).2.2
      exOne (by decide) exTwo (by decide) (by decide) (by decide) (by decide)⟩

/-- **C5.** When the rendering of an example is a braced block (it begins
with `{` and a newline and ends with a newline and `}`), `writeExamples`
reformats it: the first and last lines are dropped and each remaining line
loses one leading tab (when present) and is terminated with a newline; any
rendering not of that shape is written unchanged. -/
theorem reformat_braced_block_spec :
    (∀ mid : List Str, (∀ l ∈ mid, '\n' ∉ l) →
      reformat (['\n'].intercalate (['{'] :: (mid ++ [['}']]))) =
        (mid.map (fun line => trimTab line ++ ['\n'])).flatten) ∧
    (∀ s : Str, ¬(['{', '\n'] <+: s ∧ ['\n', '}'] <:+ s) → reformat s = s) :=
  ⟨reformat_intercalate, fun s h => by rw [reformat, if_neg h]⟩

/-- Witness for C5: a concrete braced block is reformatted, a concrete
non-braced rendering is unchanged. -/
theorem reformat_braced_block_instance :
    reformat (['\n'].intercalate (['{'] ::
        ([ofString "\tx := 1", ofString "y()"] ++ [['}']]))) =
      (([ofString "\tx := 1", ofString "y()"]).map
        (fun line => trimTab line ++ ['\n'])).flatten ∧
    reformat (ofString "package main\n") = ofString "package main\n" :=
  ⟨reformat_braced_block_spec.1 [ofString "\tx := 1", ofString "y()"] (by decide),
   reformat_braced_block_spec.2 (ofString "package main\n") (by decide)⟩

/-- **C10.** A package in the skip list makes `processExamples` return at
once with no writes and no error, and `writeExamples` on an empty example
list performs no writes. -/
theorem skip_and_empty_no_output (pkg : DocPackage)
    (trimPre outDir regionTag : Str) (m : List (Str × Str)) (year : Nat) :
    (pkg.importPath ∈ skip →
      processExamples pkg trimPre outDir m year = .ok []) ∧
    writeExamples outDir [] regionTag year = [] := by
  constructor
  · intro hs
    rw [processExamples, if_pos hs]
  · rw [writeExamples, if_pos rfl]

/-- Witness for C10 at the skipped `civil` package. -/
theorem skip_and_empty_no_output_instance :
    pkgCivil.importPath ∈ skip ∧
    processExamples pkgCivil (ofString "cloud.google.com/go") (ofString "out")
      mapBigtable 2021 = .ok [] :=
  ⟨by decide,
   (skip_and_empty_no_output pkgCivil (ofString "cloud.google.com/go")
      (ofString "out") (ofString "t") mapBigtable 2021).1 (by decide)⟩

/-- **C9.** The fallback shortname search is deterministic despite the
unspecified Go map iteration order: any two orders in which the loop can
visit the map's keys resolve the same shortname for the same import path,
because the strictly-longer replacement rule selects the unique longest
key leading the import path. -/
theorem bestMatch_iteration_order_independent (m : List (Str × Str))
    (ip : Str) (keys₁ keys₂ : List Str)
    (h₁ : keys₁.Perm (m.map Prod.fst)) (h₂ : keys₂.Perm (m.map Prod.fst)) :
    resolveShortnameWith m keys₁ ip = resolveShortnameWith m keys₂ ip := by
  have hb := bestMatch_perm ip (h₁.trans h₂.symm)
  unfold resolveShortnameWith
  rw [hb]

/-- Witness for C9 at a two-key map visited in both orders. -/
theorem bestMatch_iteration_order_instance :
    resolveShortnameWith
      [(ofString "cloud.google.com/go/bigtable", ofString "bigtable"),
       (ofString "cloud.google.com/go/pubsub", ofString "pubsub")]
      [ofString "cloud.google.com/go/bigtable", ofString "cloud.google.com/go/pubsub"]
      (ofString "cloud.google.com/go/bigtable/bttest")
    = resolveShortnameWith
        [(ofString "cloud.google.com/go/bigtable", ofString "bigtable"),
         (ofString "cloud.google.com/go/pubsub", ofString "pubsub")]
        [ofString "cloud.google.com/go/pubsub", ofString "cloud.google.com/go/bigtable"]
        (ofString "cloud.google.com/go/bigtable/bttest") :=
  bestMatch_iteration_order_independent
    [(ofString "cloud.google.com/go/bigtable", ofString "bigtable"),
     (ofString "cloud.google.com/go/pubsub", ofString "pubsub")]
    (ofString "cloud.google.com/go/bigtable/bttest")
    [ofString "cloud.google.com/go/bigtable", ofString "cloud.google.com/go/pubsub"]
    [ofString "cloud.google.com/go/pubsub", ofString "cloud.google.com/go/bigtable"]
    (by decide) (by decide)

/-- **C3(counterexample).** The claim fails as stated: with the map
`{"" ↦ "root"}` and import path `"x"`, the empty string is a map key that
leads the import path (and is the longest such key), yet `processExamples`'
resolution returns an error instead of using its shortname, because the
fallback loop only ever replaces the current best match with a strictly
longer key and starts from the empty string. -/
theorem resolveShortname_empty_key_cex :
    List.lookup (ofString "x") [(([] : Str), ofString "root")] = none ∧
    (([] : Str), ofString "root") ∈ [(([] : Str), ofString "root")] ∧
    (([] : Str) <+: ofString "x") ∧
    resolveShortname [(([] : Str), ofString "root")] (ofString "x")
      = .error (ofString "could not find API shortname for " ++ ofString "x") :=
  ⟨rfl, List.mem_singleton.2 rfl, List.nil_prefix, rfl⟩

/-- **C3(amended).** For a non-skipped package, `processExamples` resolves
the shortname thus: an exact map hit is used; otherwise the shortname of
the longest *nonempty* map key leading the import path is used; when no
nonempty map key leads the import path an error is returned, and an
erroring `processExamples` performs no writes. -/
theorem resolveShortname_longest_nonempty_match (m : List (Str × Str))
    (ip : Str) :
    (∀ s, m.lookup ip = some s → resolveShortname m ip = .ok s) ∧
    (m.lookup ip = none →
      ∀ k, k ∈ m.map Prod.fst → k <+: ip → k ≠ [] →
        ∃ b, b ∈ m.map Prod.fst ∧ b <+: ip ∧ b ≠ [] ∧
          (∀ k₂ ∈ m.map Prod.fst, k₂ <+: ip → k₂.length ≤ b.length) ∧
          resolveShortname m ip = .ok ((m.lookup b).getD [])) ∧
    (m.lookup ip = none →
      (∀ k ∈ m.map Prod.fst, k <+: ip → k = []) →
      ∃ e, resolveShortname m ip = .error e) ∧
    (∀ (pkg : DocPackage) (trimPre outDir : Str) (year : Nat) (e : Str),
      pkg.importPath ∉ skip →
      resolveShortname m pkg.importPath = .error e →
      processExamples pkg trimPre outDir m year = .error e) := by
  refine ⟨?_, ?_, ?_, ?_⟩
  · intro s hs
    unfold resolveShortname resolveShortnameWith
    rw [hs]
  · intro hnone k hk hp hkne
    rcases bestMatch_spec ip (m.map Prod.fst) with ⟨_, hall⟩ | ⟨hm, hpre, hbn, hmax⟩
    · exact absurd (hall k hk hp) hkne
    · refine ⟨bestMatch ip (m.map Prod.fst), hm, hpre, hbn, hmax, ?_⟩
      unfold resolveShortname resolveShortnameWith
      rw [hnone]
      simp [hbn]
  · intro hnone hall
    rcases bestMatch_spec ip (m.map Prod.fst) with ⟨hb, _⟩ | ⟨hm, hpre, hbn, _⟩
    · refine ⟨ofString "could not find API shortname for " ++ ip, ?_⟩
      unfold resolveShortname resolveShortnameWith
      rw [hnone]
      simp [hb]
    · exact absurd (hall _ hm hpre) hbn
  · intro pkg trimPre outDir year e hskip herr
    unfold processExamples
    rw [if_neg hskip, herr]

/-- Witness for C3 at the `bttest` fallback. -/
theorem resolveShortname_longest_match_instance :
    List.lookup (ofString "cloud.google.com/go/bigtable/bttest") mapBigtable
      = none ∧
    ∃ b, b ∈ mapBigtable.map Prod.fst ∧
      b <+: ofString "cloud.google.com/go/bigtable/bttest" ∧ b ≠ [] ∧
      (∀ k₂ ∈ mapBigtable.map Prod.fst,
        k₂ <+: ofString "cloud.google.com/go/bigtable/bttest" →
        k₂.length ≤ b.length) ∧
      resolveShortname mapBigtable (ofString "cloud.google.com/go/bigtable/bttest")
        = .ok ((mapBigtable.lookup b).getD []) :=
  ⟨rfl,
   (resolveShortname_longest_nonempty_match mapBigtable
      (ofString "cloud.google.com/go/bigtable/bttest")).2.1 rfl
     (ofString "cloud.google.com/go/bigtable") (by decide) (by decide) (by decide)⟩

/-- **C2.** Every file a package's processing writes carries the region tag
built as: the resolved shortname, then `_generated`, then the import path
with the leading `cloud.google.com/go` removed and every `/` replaced by
`_`, then `_` and the example's name. -/
theorem processExamples_region_tag_formula (pkg : DocPackage)
    (outDir : Str) (m : List (Str × Str)) (year : Nat) (sn : Str)
    (ws : List (Str × Str))
    (hsn : resolveShortname m pkg.importPath = .ok sn)
    (h : processExamples pkg (ofString "cloud.google.com/go") outDir m year
      = .ok ws) :
    ∀ w ∈ ws, ∃ ex ∈ allExamples pkg, ∃ d,
      w = (d, snippetContent year
            ((sn ++ ofString "_generated"
                ++ replaceSlash
                  (trimPfx pkg.importPath (ofString "cloud.google.com/go")))
              ++ '_' :: ex.name)
            (reformat ex.rendered)) := by
  intro w hw
  rcases mem_processExamples_writes h hw with ⟨sn2, hsn2, ex, hex, d, rfl⟩
  rw [hsn] at hsn2
  injection hsn2 with hs
  subst hs
  exact ⟨ex, hex, d, rfl⟩

/-- Witness for C2 at the `bttest` fixture package. -/
theorem processExamples_region_tag_instance :
    ∃ w, w ∈ pkgWrites pkgBttest (ofString "cloud.google.com/go")
        (ofString "out") mapBigtable 2021 ∧
      ∃ ex ∈ allExamples pkgBttest, ∃ d,
        w = (d, snippetContent 2021
              ((ofString "bigtable" ++ ofString "_generated"
                  ++ replaceSlash
                    (trimPfx pkgBttest.importPath (ofString "cloud.google.com/go")))
                ++ '_' :: ex.name)
              (reformat ex.rendered)) := by
  have hne : pkgWrites pkgBttest (ofString "cloud.google.com/go")
      (ofString "out") mapBigtable 2021 ≠ [] := by decide
  exact ⟨_, List.head_mem hne,
    processExamples_region_tag_formula pkgBttest (ofString "out") mapBigtable
      2021 (ofString "bigtable") _ rfl rfl _ (List.head_mem hne)⟩

/-- **C6.** Every file emitted during a run of `Generate` begins with the
same Apache 2.0 license header, whose copyright year is the year of the
run; in particular the header prefix is identical across all files written
in one run. -/
theorem generate_license_header_uniform (rootPath : Str)
    (cs : List FsEntry) (loader : Str → Except Str (List DocPackage))
    (outDir : Str) (m : List (Str × Str)) (year : Nat) :
    (∀ w ∈ (Generate rootPath cs loader outDir m year).1,
      header year <+: w.2) ∧
    (∀ w₁ ∈ (Generate rootPath cs loader outDir m year).1,
     ∀ w₂ ∈ (Generate rootPath cs loader outDir m year).1,
      w₁.2.take (header year).length = w₂.2.take (header year).length) := by
  have hp : ∀ w ∈ (Generate rootPath cs loader outDir m year).1,
      header year <+: w.2 := by
    intro w hw
    unfold Generate at hw
    exact header_prefix_GenerateLoop _ _ _ _ _ _ w hw
  refine ⟨hp, fun w₁ h₁ w₂ h₂ => ?_⟩
  have e₁ := List.prefix_iff_eq_take.mp (hp w₁ h₁)
  have e₂ := List.prefix_iff_eq_take.mp (hp w₂ h₂)
  rw [← e₁, ← e₂]

/-- Witness for C6 at a concrete run that writes one file. -/
theorem generate_license_header_instance :
    ∃ w, w ∈ (Generate (ofString ".") treeKms (fun _ => .ok [pkgBttest])
        (ofString "out") mapBigtable 2021).1 ∧
      header 2021 <+: w.2 := by
  have hne : (Generate (ofString ".") treeKms (fun _ => .ok [pkgBttest])
      (ofString "out") mapBigtable 2021).1 ≠ [] := by decide
  exact ⟨_, List.head_mem hne,
    (generate_license_header_uniform (ofString ".") treeKms
        (fun _ => .ok [pkgBttest]) (ofString "out") mapBigtable 2021).1
      _ (List.head_mem hne)⟩

/-- Witness for C7 at a run with one failing and one succeeding package. -/
theorem generateLoop_error_aggregation_instance :
    GenerateLoop [ofString "d"] (fun _ => .ok [pkgNoMatch, pkgBttest])
      (ofString "cloud.google.com/go") (ofString "out") mapBigtable 2021
    = ((([ofString "d"].map (fun d =>
          loadedPkgs ((fun _ => Except.ok [pkgNoMatch, pkgBttest]) d))).flatten.map
            (fun p => pkgWrites p (ofString "cloud.google.com/go")
              (ofString "out") mapBigtable 2021)).flatten,
       ([ofString "d"].map (fun d =>
          loadedPkgs ((fun _ => Except.ok [pkgNoMatch, pkgBttest]) d))).flatten.filterMap
            (fun p => pkgErr p (ofString "cloud.google.com/go")
              (ofString "out") mapBigtable 2021),
       none) :=
  generateLoop_error_aggregation [ofString "d"]
    (fun _ => .ok [pkgNoMatch, pkgBttest]) (ofString "cloud.google.com/go")
    (ofString "out") mapBigtable 2021
    (fun _ _ => ⟨[pkgNoMatch, pkgBttest], rfl⟩)

/-- **C8(counterexample).** Not every directory that contains a `go.mod`
file is collected by the walk: the walk callback returns `SkipDir` for
entries named `internal`, so a module at `internal/go.mod` is in no
collected directory even though `./internal` contains a `go.mod` file. -/
theorem collectDirs_internal_cex :
    ofString "./internal" ∈ goModDirs (ofString ".") treeInternalGoMod ∧
    collectDirs (ofString ".") treeInternalGoMod = [] := by
  constructor
  · decide
  · decide

/-- **C8(amended).** `Generate` is a single pass: the walk completes first
and the loop over the collected directories runs only afterwards on the
walk's output, so no directory is walked again once processing begins; the
walk collects the `go.mod`-containing directories it reaches, and when no
entry of the tree is named `internal` and no directory is named `go.mod`,
the collected directories are exactly those containing a `go.mod` file. -/
theorem generate_single_pass_walk (rootPath : Str) (cs : List FsEntry)
    (loader : Str → Except Str (List DocPackage)) (outDir : Str)
    (m : List (Str × Str)) (year : Nat)
    (hroot : rootPath ≠ []) (hout : outDir ≠ [])
    (hok : okEntries cs = true) :
    Generate rootPath cs loader outDir m year
      = GenerateLoop (collectDirs rootPath cs) loader
          (ofString "cloud.google.com/go") outDir m year ∧
    ∀ p, p ∈ collectDirs rootPath cs ↔ p ∈ goModDirs rootPath cs := by
  constructor
  · simp only [Generate, if_neg hroot, if_neg hout]
  · intro p
    unfold collectDirs goModDirs
    rw [mem_walkEntries p rootPath cs hok]
    by_cases hgm : hasGoModFile cs = true <;> simp [hgm]

/-- Witness for C8 at a concrete internal-free tree. -/
theorem generate_single_pass_instance :
    (Generate (ofString ".") treeKms (fun _ => .ok []) (ofString "out")
        mapBigtable 2021
      = GenerateLoop (collectDirs (ofString ".") treeKms) (fun _ => .ok [])
          (ofString "cloud.google.com/go") (ofString "out") mapBigtable 2021) ∧
    (ofString "./kms" ∈ collectDirs (ofString ".") treeKms ↔
      ofString "./kms" ∈ goModDirs (ofString ".") treeKms) := by
  have H := generate_single_pass_walk (ofString ".") treeKms (fun _ => .ok [])
    (ofString "out") mapBigtable 2021 (by decide) (by decide) (by decide)
  exact ⟨H.1, H.2 (ofString "./kms")⟩
